import Mathlib

/-!
Verification of the voro++ wrapper (`src/hyperion/grid/voropp_wrap.cc`).

The wrapper orchestrates the voro++ cell-geometry engine: it sizes an
acceleration grid, populates a container with all particles (tagging the
selected range), validates and attaches an optional wall, iterates the tagged
particles computing neighbours / volume / bounding box / vertices per cell, and
packs the variable-length per-cell results into fixed-stride buffers with
sentinel padding.

Modelling conventions:
* C `double` values are modelled as `ℚ`: every double is a rational and all
  operations the wrapper itself performs on them (copies, comparisons,
  min/max selection) are exact.  The cube root used by the grid sizer has no
  exact rational counterpart, so it is passed as an abstract function
  parameter `cbrt`.
* C `int` is modelled as `ℤ`; the cast `(int)` of a nonnegative value is
  truncation toward zero, modelled by `c_trunc`.
* The voro++ engine (container internals, `compute_cell`, `c_loop_order`) is
  not part of the sources under verification; it is modelled from the spec's
  engine contract: a container records the inserted particles, the tagged
  insertion order and the attached walls, and an abstract `Engine` function
  produces the per-cell data (neighbours, volume, vertex triplets), possibly
  failing.
* The not-a-number padding value of the vertex channel is modelled by `none`
  in `Option ℚ`.
* The C++ `try`/`catch` boundary is modelled by `Except String` threaded to
  the single result channel of `hyperion_voropp_wrap`.
-/

/-- Number of average particles per block (`static const double particle_block = 5.`). -/
def particle_block : ℚ := 5

/-- The C cast `(int)` applied to a double: truncation toward zero. -/
def c_trunc (q : ℚ) : ℤ := if q < 0 then -⌊-q⌋ else ⌊q⌋

/-- Axis-aligned domain box `(xmin, xmax, ymin, ymax, zmin, zmax)`. -/
structure Domain where
  xmin : ℚ
  xmax : ℚ
  ymin : ℚ
  ymax : ℚ
  zmin : ℚ
  zmax : ℚ
deriving DecidableEq

/-- Grid sizing, translated from lines 122-136 of the wrapper: `nblocks = nsites /
particle_block`, `block_edge = cbrt nblocks`, `vol_edge = cbrt (volume of the box)`,
and per axis `(int)(extent / vol_edge * block_edge) + 1`.  The cube root is an
abstract parameter. -/
def gridRes (cbrt : ℚ → ℚ) (nsites : ℤ) (d : Domain) : ℤ × ℤ × ℤ :=
  let nblocks : ℚ := (nsites : ℚ) / particle_block
  let block_edge : ℚ := cbrt nblocks
  let vol_edge : ℚ := cbrt ((d.xmax - d.xmin) * (d.ymax - d.ymin) * (d.zmax - d.zmin))
  (c_trunc ((d.xmax - d.xmin) / vol_edge * block_edge) + 1,
   c_trunc ((d.ymax - d.ymin) / vol_edge * block_edge) + 1,
   c_trunc ((d.zmax - d.zmin) / vol_edge * block_edge) + 1)

/-- Wall objects constructed by `add_walls` (`wall_sphere`, `wall_cylinder`). -/
inductive Wall
  | sphere (xc yc zc rc : ℚ)
  | cylinder (xc yc zc xa ya za rc : ℚ)
deriving DecidableEq

/-- Wall validation and construction, translated from `add_walls` (lines 72-112).
Returns the wall to attach to the container, `none` when the wall name is not
recognized, or the `std::invalid_argument` message. -/
def add_walls (wall_str : String) (wall_args : List ℚ) : Except String (Option Wall) :=
  if wall_str = "sphere" then
    if wall_args.length ≠ 4 then
      .error "invalid number of arguments for a 'sphere' wall, exactly 4 are needed"
    else if wall_args.getD 3 0 ≤ 0 then
      .error "the radius of a 'sphere' wall must be strictly positive"
    else
      .ok (some (Wall.sphere (wall_args.getD 0 0) (wall_args.getD 1 0)
        (wall_args.getD 2 0) (wall_args.getD 3 0)))
  else if wall_str = "cylinder" then
    if wall_args.length ≠ 7 then
      .error "invalid number of arguments for a 'cylinder' wall, exactly 7 are needed"
    else if wall_args.getD 6 0 ≤ 0 then
      .error "the radius of a 'cylinder' wall must be strictly positive"
    else
      .ok (some (Wall.cylinder (wall_args.getD 0 0) (wall_args.getD 1 0) (wall_args.getD 2 0)
        (wall_args.getD 3 0) (wall_args.getD 4 0) (wall_args.getD 5 0) (wall_args.getD 6 0)))
  else
    .ok none

/-- Concrete stand-in for the real cube root in the grid-sizing counterexample.
It agrees with the (unique) real cube root on the two inputs the counterexample
uses, which is certified inside the counterexample statement itself. -/
def cbrt_w : ℚ → ℚ := fun q => if q = 8 then 2 else if q = -1 then -1 else 0

/-- Domain with an inverted x axis (`xmax < xmin`), used as counterexample input. -/
def domain_inverted : Domain := ⟨0, -1, 0, 1, 0, 1⟩

/-- Unit cube domain, used as witness input. -/
def domain_unit : Domain := ⟨0, 1, 0, 1, 0, 1⟩

/-- Spatial container, modelled from the spec's engine contract: it records the
domain, the grid resolution, every inserted particle (global id and position),
the sub-list of particles inserted with the `particle_order` tag (in insertion
order, which is what `c_loop_order` later iterates), and the attached walls. -/
structure Container where
  dom : Domain
  grid : ℤ × ℤ × ℤ
  particles : List (ℤ × (ℚ × ℚ × ℚ))
  tagged : List (ℤ × (ℚ × ℚ × ℚ))
  walls : List Wall

/-- Engine operation `con.put(po, i, x, y, z)`: insert a particle and record it in
the particle order. -/
def Container.put_tagged (con : Container) (i : ℤ) (p : ℚ × ℚ × ℚ) : Container :=
  { con with particles := con.particles ++ [(i, p)], tagged := con.tagged ++ [(i, p)] }

/-- Engine operation `con.put(i, x, y, z)`: insert a particle without tagging it. -/
def Container.put (con : Container) (i : ℤ) (p : ℚ × ℚ × ℚ) : Container :=
  { con with particles := con.particles ++ [(i, p)] }

/-- Per-cell data produced by the engine for one tagged particle: neighbour ids (in
engine order), the cell volume, and the flat vertex-coordinate triplets. -/
structure CellData where
  neighbours : List ℤ
  volume : ℚ
  vertices : List ℚ

/-- The cell-geometry engine (`con.compute_cell` plus the `voronoicell_neighbor`
queries), modelled from the spec: given the container state and a tagged particle
(id and position) it yields the cell data, or fails; any engine-level fault
surfaces as an exception at the call boundary. -/
abbrev Engine := Container → ℤ → (ℚ × ℚ × ℚ) → Except String CellData

/-- Population loop, lines 170-176: for each `i` in `[0, nsites)` insert particle
`i` tagged when `start ≤ i < end`, untagged otherwise.  `points.getD` models the
read of `points[i*3 .. i*3+2]`. -/
def populate (start stop : ℤ) (points : List (ℚ × ℚ × ℚ)) (nsites : ℕ)
    (con : Container) : Container :=
  (List.range nsites).foldl
    (fun c (i : ℕ) =>
      if start ≤ (i : ℤ) ∧ (i : ℤ) < stop then
        c.put_tagged (i : ℤ) (points.getD i (0, 0, 0))
      else
        c.put (i : ℤ) (points.getD i (0, 0, 0)))
    con

/-- Bounding-box derivation for one component `j < 3`, lines 206-217: initialise
min and max with the first vertex triplet (`vs[j]`), then scan triplets
`i = 1 .. size/3 - 1`, lowering the minimum when `vs[i*3+j]` is smaller and raising
the maximum when it is larger.  An empty vertex list is NOT checked for by the code
(the first-triplet reads are out of bounds then); the model reads the junk default 0. -/
def bb_pair (vs : List ℚ) (j : ℕ) : ℚ × ℚ :=
  (List.range' 1 (vs.length / 3 - 1)).foldl
    (fun mM i =>
      (if vs.getD (i * 3 + j) 0 < mM.1 then vs.getD (i * 3 + j) 0 else mM.1,
       if mM.2 < vs.getD (i * 3 + j) 0 then vs.getD (i * 3 + j) 0 else mM.2))
    (vs.getD j 0, vs.getD j 0)

/-- Intermediate per-call storage written by the computation loop: the neighbour
lists, the vertex lists (only used when vertices were requested), the shared
scratch vertex vector `tmp_v`, the volumes, and the two flat bounding-box arrays. -/
structure LoopState where
  n_list : List (List ℤ)
  vertices_list : List (List ℚ)
  tmp_v : List ℚ
  vols : List ℚ
  bb_m : List ℚ
  bb_M : List ℚ

/-- Storage as allocated before the loop (lines 153-163): `ncells` slots per
channel, three per cell for the bounding boxes.  `malloc` provides uninitialised
memory; the model fills the junk slots with 0. -/
def init_loop_state (with_vertices : Bool) (ncells : ℕ) : LoopState :=
  { n_list := List.replicate ncells [],
    vertices_list := if with_vertices then List.replicate ncells [] else [],
    tmp_v := [],
    vols := List.replicate ncells 0,
    bb_m := List.replicate (ncells * 3) 0,
    bb_M := List.replicate (ncells * 3) 0 }

/-- Write one bounding-box triple at cell slot `idx` (lines 219-220). -/
def writeTriple (l : List ℚ) (idx : ℕ) (a b c : ℚ) : List ℚ :=
  ((l.set (idx * 3) a).set (idx * 3 + 1) b).set (idx * 3 + 2) c

/-- One iteration of the computation loop (lines 192-221) for tagged particle `i`
with engine result `cd`: the local slot is `idx = i - start`; the neighbour list,
volume, vertex list (into `vertices_list[idx]` when vertices were requested, into
the scratch `tmp_v` otherwise) and the bounding box derived from the vertex list
are written at that slot. -/
def loop_step (with_vertices : Bool) (start : ℤ) (st : LoopState) (i : ℤ)
    (cd : CellData) : LoopState :=
  let idx := (i - start).toNat
  { n_list := st.n_list.set idx cd.neighbours,
    vertices_list := if with_vertices then st.vertices_list.set idx cd.vertices
      else st.vertices_list,
    tmp_v := if with_vertices then st.tmp_v else cd.vertices,
    vols := st.vols.set idx cd.volume,
    bb_m := writeTriple st.bb_m idx (bb_pair cd.vertices 0).1 (bb_pair cd.vertices 1).1
      (bb_pair cd.vertices 2).1,
    bb_M := writeTriple st.bb_M idx (bb_pair cd.vertices 0).2 (bb_pair cd.vertices 1).2
      (bb_pair cd.vertices 2).2 }

/-- The computation loop (lines 191-222): `c_loop_order` iterates the particles
recorded in the particle order, each exactly once; each iteration computes the
cell via the engine and writes one result.  An engine fault aborts the loop. -/
def computeLoop (engine : Engine) (con : Container) (start : ℤ)
    (with_vertices : Bool) (st0 : LoopState) : Except String LoopState :=
  con.tagged.foldlM
    (fun st ip => do
      let cd ← engine con ip.1 ip.2
      pure (loop_step with_vertices start st ip.1 cd))
    st0

/-- Maximum row size of a list of rows
(`std::max_element(..., size_cmp)->size()`, lines 225 and 240).  For an empty
row list (`ncells = 0`, outside the valid-input contract) `max_element`
dereferences `end()` in the C code; the model returns 0. -/
def max_size {α : Type} (rows : List (List α)) : ℕ :=
  rows.foldl (fun m r => max m r.length) 0

/-- Row packing (lines 231-236 and 246-251): each row is copied left-aligned into a
fixed-width row of `w` slots and the trailing slots are filled with `pad`; the rows
are laid out consecutively (row-major). -/
def pack_flat {α : Type} (w : ℕ) (pad : α) (rows : List (List α)) : List α :=
  (rows.map (fun r => r ++ List.replicate (w - r.length) pad)).flatten

/-- Process-wide mutable state of the translation unit: the static error string
used to report failures (line 64) and the static `std::auto_ptr<wall>` keeping the
last constructed wall alive (line 69). -/
structure GlobalState where
  error_message : String
  wall_ptr : Option Wall

/-- Update of the static `wall_ptr` performed by `add_walls`: `wall_ptr.reset(new ...)`
replaces it on success for a recognized wall name, and it is left untouched for an
unrecognized name (the previous call's wall object stays alive). -/
def next_wall_ptr (g : GlobalState) (w? : Option Wall) : GlobalState :=
  match w? with
  | some w => { g with wall_ptr := some w }
  | none => g

/-- Arguments of one `hyperion_voropp_wrap` call. `stop` is the C parameter `end`
(a Lean keyword); the flat `points` array of `3 * nsites` doubles is modelled as a
list of coordinate triples. -/
structure Inputs where
  start : ℤ
  stop : ℤ
  dom : Domain
  points : List (ℚ × ℚ × ℚ)
  nsites : ℤ
  with_vertices : Bool
  wall_str : String
  wall_args : List ℚ

/-- Output buffers committed to the caller on success.  The vertex channel is
`none` when vertices were not requested (the C code then leaves `*vertices`
unassigned); NaN padding slots of the vertex buffer are `none`. -/
structure Outputs where
  neighbours : List ℤ
  max_nn : ℕ
  volumes : List ℚ
  bb_min : List ℚ
  bb_max : List ℚ
  vertices : Option (List (Option ℚ))
  max_nv : ℕ

/-- The container built by one call: constructed over the domain with the grid
resolution from the sizing heuristic (line 168), populated with all particles
(lines 170-176), with the wall produced by `add_walls` attached (line 179) before
any cell is computed. -/
def call_container (cbrt : ℚ → ℚ) (inp : Inputs) (w? : Option Wall) : Container :=
  let con1 := populate inp.start inp.stop inp.points inp.nsites.toNat
    { dom := inp.dom, grid := gridRes cbrt inp.nsites inp.dom,
      particles := [], tagged := [], walls := [] }
  { con1 with walls := con1.walls ++ w?.toList }

/-- Body of the `try` block of `hyperion_voropp_wrap` (lines 120-265), with the
static state threaded through: wall validation (which may throw), the computation
loop (whose engine faults propagate), and the packing of the results.  The first
component is the static state as left behind by the call; the exception, if any,
escapes to the `catch` handler. -/
def wrap_body (cbrt : ℚ → ℚ) (engine : Engine) (inp : Inputs) (g : GlobalState) :
    GlobalState × Except String Outputs :=
  match add_walls inp.wall_str inp.wall_args with
  | .error e => (g, .error e)
  | .ok w? =>
      let g' := next_wall_ptr g w?
      match computeLoop engine (call_container cbrt inp w?) inp.start inp.with_vertices
          (init_loop_state inp.with_vertices (inp.stop - inp.start).toNat) with
      | .error e => (g', .error e)
      | .ok st =>
          let mnn := max_size st.n_list
          let neighs := pack_flat mnn (-10 : ℤ) st.n_list
          if inp.with_vertices then
            let mnv := max_size st.vertices_list
            (g', .ok { neighbours := neighs, max_nn := mnn, volumes := st.vols,
                       bb_min := st.bb_m, bb_max := st.bb_M,
                       vertices := some (pack_flat mnv none
                         (st.vertices_list.map (List.map some))),
                       max_nv := mnv })
          else
            (g', .ok { neighbours := neighs, max_nn := mnn, volumes := st.vols,
                       bb_min := st.bb_m, bb_max := st.bb_M,
                       vertices := none, max_nv := 0 })

/-- The `catch` handler's message (lines 267-269). -/
def cpp_exc_msg (e : String) : String :=
  "A C++ exception was raised while calling the voro++ wrapper. The full error message is: \""
    ++ e ++ "\"."

/-- The complete call (lines 115-271): run the body; on success commit every output
buffer and return NULL (`none`), on any exception commit nothing, store the
formatted message in the static error string and return it. -/
def hyperion_voropp_wrap (cbrt : ℚ → ℚ) (engine : Engine) (inp : Inputs)
    (g : GlobalState) : GlobalState × Option Outputs × Option String :=
  match wrap_body cbrt engine inp g with
  | (g', .ok out) => (g', some out, none)
  | (g', .error e) =>
      ({ g' with error_message := cpp_exc_msg e }, none, some (cpp_exc_msg e))

/-- Modelled from the spec: the engine's boundary-face sentinel ids are part of the
bundled voro++ engine, not of the source under verification.  A cell face produced
by one of the six domain boundaries carries a negative id in `-1 .. -6`, and a face
produced by a wall carries the wall's id, which is the voro++ default `-99` for the
walls constructed by `add_walls`. -/
def boundary_face_ids : List ℤ := [-1, -2, -3, -4, -5, -6, -99]

/-- Pristine static state at process start. -/
def g_init : GlobalState := { error_message := "", wall_ptr := none }

/-- Step function of the bounding-box scan, one component at a time. -/
def minmax_step (f : ℕ → ℚ) : (ℚ × ℚ) → ℕ → (ℚ × ℚ) := fun mM i =>
  (if f i < mM.1 then f i else mM.1, if mM.2 < f i then f i else mM.2)

/-- Engine stand-in used by concrete witness runs: every cell has no neighbours,
volume 1 and a single vertex at the origin. -/
def engine_unit : Engine := fun _ _ _ =>
  .ok { neighbours := [], volume := 1, vertices := [0, 0, 0] }

/-- Engine stand-in producing a degenerate cell: zero vertices. -/
def engine_degenerate : Engine := fun _ _ _ =>
  .ok { neighbours := [], volume := 0, vertices := [] }

/-- One-particle call with no wall, used by witnesses. -/
def inp_nowall : Inputs :=
  { start := 0, stop := 1, dom := domain_unit, points := [(0, 0, 0)], nsites := 1,
    with_vertices := false, wall_str := "", wall_args := [] }

/-- One-particle call with vertices requested and no wall, used to exercise the
degenerate-cell path. -/
def inp_degenerate : Inputs :=
  { start := 0, stop := 1, dom := domain_unit, points := [(0, 0, 0)], nsites := 1,
    with_vertices := true, wall_str := "", wall_args := [] }

/-- One-particle call with a valid sphere wall, used to exhibit the persisting
static wall object. -/
def inp_sphere : Inputs :=
  { start := 0, stop := 1, dom := domain_unit, points := [(0, 0, 0)], nsites := 1,
    with_vertices := false, wall_str := "sphere", wall_args := [0, 0, 0, 1] }

-- Helper lemmas ---------------------------------------------------------------

theorem c_trunc_eq_floor {q : ℚ} (h : 0 ≤ q) : c_trunc q = ⌊q⌋ := by
  unfold c_trunc
  rw [if_neg (not_lt.mpr h)]

theorem getD_set_self {α : Type} (l : List α) (i : ℕ) (a d : α) (h : i < l.length) :
    (l.set i a).getD i d = a := by
  rw [List.getD_eq_getElem?_getD, List.getElem?_set_self h]
  rfl

theorem getD_set_ne {α : Type} (l : List α) {i j : ℕ} (a d : α) (h : i ≠ j) :
    (l.set i a).getD j d = l.getD j d := by
  rw [List.getD_eq_getElem?_getD, List.getElem?_set_ne h, ← List.getD_eq_getElem?_getD]

theorem getD_replicate {α : Type} (n m : ℕ) (a d : α) :
    (List.replicate n a).getD m d = if m < n then a else d := by
  rw [List.getD_eq_getElem?_getD, List.getElem?_replicate]
  split <;> rfl

theorem foldl_max_shift {α : Type} (l : List (List α)) :
    ∀ a : ℕ, l.foldl (fun m r => max m r.length) a =
      max a (l.foldl (fun m r => max m r.length) 0) := by
  induction l with
  | nil => intro a; simp
  | cons r rs ih =>
    intro a
    simp only [List.foldl_cons]
    rw [ih (max a r.length), ih (max 0 r.length)]
    omega

theorem max_size_cons {α : Type} (r : List α) (rs : List (List α)) :
    max_size (r :: rs) = max r.length (max_size rs) := by
  simp only [max_size, List.foldl_cons]
  rw [foldl_max_shift]
  omega

theorem le_max_size {α : Type} {rows : List (List α)} {r : List α} (h : r ∈ rows) :
    r.length ≤ max_size rows := by
  induction rows with
  | nil => cases h
  | cons a as ih =>
    rw [max_size_cons]
    rcases List.mem_cons.mp h with h1 | h1
    · subst h1; omega
    · have := ih h1; omega

theorem exists_max_size {α : Type} (rows : List (List α)) (h : rows ≠ []) :
    ∃ r ∈ rows, r.length = max_size rows := by
  induction rows with
  | nil => exact absurd rfl h
  | cons a as ih =>
    cases as with
    | nil =>
      refine ⟨a, List.mem_cons_self a [], ?_⟩
      rw [max_size_cons]
      simp [max_size]
    | cons b bs =>
      rcases le_total (max_size (b :: bs)) a.length with hle | hle
      · exact ⟨a, List.mem_cons_self _ _, by rw [max_size_cons]; omega⟩
      · obtain ⟨r, hr, he⟩ := ih (by simp)
        exact ⟨r, List.mem_cons_of_mem _ hr, by rw [max_size_cons]; omega⟩

theorem pack_flat_cons {α : Type} (w : ℕ) (pad : α) (r : List α) (rs : List (List α)) :
    pack_flat w pad (r :: rs) =
      (r ++ List.replicate (w - r.length) pad) ++ pack_flat w pad rs := by
  simp [pack_flat]

theorem padded_row_length {α : Type} {w : ℕ} {r : List α} (pad : α) (h : r.length ≤ w) :
    (r ++ List.replicate (w - r.length) pad).length = w := by
  rw [List.length_append, List.length_replicate]
  omega

theorem pack_flat_length {α : Type} (w : ℕ) (pad : α) :
    ∀ rows : List (List α), (∀ r ∈ rows, r.length ≤ w) →
      (pack_flat w pad rows).length = rows.length * w := by
  intro rows
  induction rows with
  | nil => intro _; simp [pack_flat]
  | cons r rs ih =>
    intro h
    rw [pack_flat_cons, List.length_append,
      padded_row_length pad (h r (List.mem_cons_self _ _)),
      ih (fun r' hr' => h r' (List.mem_cons_of_mem _ hr'))]
    simp only [List.length_cons]
    ring

theorem pack_flat_getD {α : Type} (w : ℕ) (pad d : α) :
    ∀ (rows : List (List α)) (i j : ℕ), (∀ r ∈ rows, r.length ≤ w) →
      i < rows.length → j < w →
      (pack_flat w pad rows).getD (i * w + j) d =
        if j < (rows.getD i []).length then (rows.getD i []).getD j d else pad := by
  intro rows
  induction rows with
  | nil => intro i j _ hi _; exact absurd hi (by simp)
  | cons r rs ih =>
    intro i j hw hi hj
    have hr : r.length ≤ w := hw r (List.mem_cons_self _ _)
    rw [pack_flat_cons]
    cases i with
    | zero =>
      simp only [List.getD_cons_zero]
      rw [Nat.zero_mul, Nat.zero_add,
        List.getD_append _ _ _ _ (by rw [padded_row_length pad hr]; exact hj)]
      by_cases hjr : j < r.length
      · rw [List.getD_append _ _ _ _ hjr, if_pos hjr]
      · rw [List.getD_append_right _ _ _ _ (by omega), if_neg hjr,
          getD_replicate, if_pos (by omega)]
    | succ i =>
      simp only [List.getD_cons_succ]
      have harith : (i + 1) * w + j = w + (i * w + j) := by ring
      rw [harith,
        List.getD_append_right _ _ _ _ (by rw [padded_row_length pad hr]; omega),
        padded_row_length pad hr, Nat.add_sub_cancel_left]
      exact ih i j (fun r' hr' => hw r' (List.mem_cons_of_mem _ hr')) (by simpa using hi) hj

theorem max_size_map_some (vrows : List (List ℚ)) :
    max_size (vrows.map (List.map some)) = max_size vrows := by
  induction vrows with
  | nil => rfl
  | cons r rs ih =>
    rw [List.map_cons, max_size_cons, max_size_cons, List.length_map, ih]

theorem minmax_fold_bounds (f : ℕ → ℚ) :
    ∀ (l : List ℕ) (a b : ℚ), a ≤ b →
      (l.foldl (minmax_step f) (a, b)).1 ≤ a ∧ b ≤ (l.foldl (minmax_step f) (a, b)).2 ∧
      (l.foldl (minmax_step f) (a, b)).1 ≤ (l.foldl (minmax_step f) (a, b)).2 ∧
      ∀ i ∈ l, (l.foldl (minmax_step f) (a, b)).1 ≤ f i ∧
        f i ≤ (l.foldl (minmax_step f) (a, b)).2 := by
  intro l
  induction l with
  | nil =>
    intro a b hab
    exact ⟨le_refl a, le_refl b, hab, by simp⟩
  | cons x l ih =>
    intro a b hab
    simp only [List.foldl_cons]
    have hstep : minmax_step f (a, b) x =
        (if f x < a then f x else a, if b < f x then f x else b) := rfl
    rw [hstep]
    have ha' : (if f x < a then f x else a) ≤ a := by split <;> [exact le_of_lt (by assumption); exact le_refl a]
    have hb' : b ≤ (if b < f x then f x else b) := by split <;> [exact le_of_lt (by assumption); exact le_refl b]
    have hax : (if f x < a then f x else a) ≤ f x := by
      split
      · exact le_refl _
      · exact le_of_not_lt (by assumption)
    have hxb : f x ≤ (if b < f x then f x else b) := by
      split
      · exact le_refl _
      · exact le_of_not_lt (by assumption)
    obtain ⟨h1, h2, h3, h4⟩ := ih (if f x < a then f x else a) (if b < f x then f x else b)
      (le_trans ha' (le_trans hab hb'))
    refine ⟨le_trans h1 ha', le_trans hb' h2, h3, ?_⟩
    intro i hi
    rcases List.mem_cons.mp hi with h | h
    · subst h
      exact ⟨le_trans h1 hax, le_trans hxb h2⟩
    · exact h4 i h

theorem bb_pair_eq_fold (vs : List ℚ) (j : ℕ) :
    bb_pair vs j = (List.range' 1 (vs.length / 3 - 1)).foldl
      (minmax_step (fun i => vs.getD (i * 3 + j) 0)) (vs.getD j 0, vs.getD j 0) := rfl

theorem populate_succ (start stop : ℤ) (pts : List (ℚ × ℚ × ℚ)) (n : ℕ) (con : Container) :
    populate start stop pts (n + 1) con =
      (if start ≤ (n : ℤ) ∧ (n : ℤ) < stop then
        (populate start stop pts n con).put_tagged (n : ℤ) (pts.getD n (0, 0, 0))
      else
        (populate start stop pts n con).put (n : ℤ) (pts.getD n (0, 0, 0))) := by
  unfold populate
  rw [List.range_succ, List.foldl_append]
  rfl

theorem populate_spec (start stop : ℤ) (pts : List (ℚ × ℚ × ℚ)) :
    ∀ (n : ℕ) (con : Container),
      (populate start stop pts n con).particles =
        con.particles ++ (List.range n).map (fun (i : ℕ) => ((i : ℤ), pts.getD i (0, 0, 0))) ∧
      (populate start stop pts n con).tagged =
        con.tagged ++ ((List.range n).filter
          (fun (i : ℕ) => decide (start ≤ (i : ℤ)) && decide ((i : ℤ) < stop))).map
          (fun (i : ℕ) => ((i : ℤ), pts.getD i (0, 0, 0))) ∧
      (populate start stop pts n con).walls = con.walls := by
  intro n
  induction n with
  | zero => intro con; exact ⟨by simp [populate], by simp [populate], rfl⟩
  | succ n ih =>
    intro con
    obtain ⟨hp, ht, hw⟩ := ih con
    rw [populate_succ]
    by_cases hc : start ≤ (n : ℤ) ∧ (n : ℤ) < stop
    · rw [if_pos hc]
      have hfc : (List.range (n + 1)).filter
            (fun (i : ℕ) => decide (start ≤ (i : ℤ)) && decide ((i : ℤ) < stop)) =
          ((List.range n).filter
            (fun (i : ℕ) => decide (start ≤ (i : ℤ)) && decide ((i : ℤ) < stop))) ++ [n] := by
        rw [List.range_succ, List.filter_append]
        congr 1
        simp [hc.1, hc.2]
      refine ⟨?_, ?_, hw⟩
      · simp only [Container.put_tagged, hp, List.range_succ, List.map_append,
          List.append_assoc, List.map_cons, List.map_nil]
      · simp only [Container.put_tagged, ht, hfc, List.map_append, List.append_assoc,
          List.map_cons, List.map_nil]
    · rw [if_neg hc]
      have hfc : (List.range (n + 1)).filter
            (fun (i : ℕ) => decide (start ≤ (i : ℤ)) && decide ((i : ℤ) < stop)) =
          (List.range n).filter
            (fun (i : ℕ) => decide (start ≤ (i : ℤ)) && decide ((i : ℤ) < stop)) := by
        rw [List.range_succ, List.filter_append]
        have : [n].filter (fun (i : ℕ) => decide (start ≤ (i : ℤ)) && decide ((i : ℤ) < stop)) = [] := by
          rw [List.filter_eq_nil_iff]
          intro x hx
          rcases List.mem_singleton.mp hx with rfl
          simp only [Bool.and_eq_true, decide_eq_true_eq]
          exact hc
        rw [this, List.append_nil]
      refine ⟨?_, ?_, hw⟩
      · simp only [Container.put, hp, List.range_succ, List.map_append,
          List.append_assoc, List.map_cons, List.map_nil]
      · simp only [Container.put, ht, hfc]

theorem filter_range_int (s e : ℤ) (n : ℕ) (hs : 0 ≤ s) (hse : s ≤ e) (hen : e ≤ (n : ℤ)) :
    (List.range n).filter (fun (i : ℕ) => decide (s ≤ (i : ℤ)) && decide ((i : ℤ) < e)) =
      List.range' s.toNat (e.toNat - s.toNat) := by
  have hab : s.toNat ≤ e.toNat := by omega
  have hbn : e.toNat ≤ n := by omega
  have e1 : List.range' 0 s.toNat ++ List.range' s.toNat (e.toNat - s.toNat) =
      List.range' 0 e.toNat := by
    have := List.range'_append 0 s.toNat (e.toNat - s.toNat) 1
    simp only [Nat.one_mul, Nat.zero_add] at this
    rw [this]
    congr 1
    omega
  have e2 : List.range' 0 e.toNat ++ List.range' e.toNat (n - e.toNat) =
      List.range' 0 n := by
    have := List.range'_append 0 e.toNat (n - e.toNat) 1
    simp only [Nat.one_mul, Nat.zero_add] at this
    rw [this]
    congr 1
    omega
  rw [List.range_eq_range', ← e2, ← e1, List.filter_append, List.filter_append]
  have f1 : (List.range' 0 s.toNat).filter
      (fun (i : ℕ) => decide (s ≤ (i : ℤ)) && decide ((i : ℤ) < e)) = [] := by
    rw [List.filter_eq_nil_iff]
    intro x hx
    have hm := List.mem_range'_1.mp hx
    simp only [Bool.and_eq_true, decide_eq_true_eq]
    omega
  have f2 : (List.range' s.toNat (e.toNat - s.toNat)).filter
      (fun (i : ℕ) => decide (s ≤ (i : ℤ)) && decide ((i : ℤ) < e)) =
      List.range' s.toNat (e.toNat - s.toNat) := by
    rw [List.filter_eq_self]
    intro x hx
    have hm := List.mem_range'_1.mp hx
    simp only [Bool.and_eq_true, decide_eq_true_eq]
    omega
  have f3 : (List.range' e.toNat (n - e.toNat)).filter
      (fun (i : ℕ) => decide (s ≤ (i : ℤ)) && decide ((i : ℤ) < e)) = [] := by
    rw [List.filter_eq_nil_iff]
    intro x hx
    have hm := List.mem_range'_1.mp hx
    simp only [Bool.and_eq_true, decide_eq_true_eq]
    omega
  rw [f1, f2, f3, List.nil_append, List.append_nil]

theorem call_container_particles (cbrt : ℚ → ℚ) (inp : Inputs) (w? : Option Wall) :
    (call_container cbrt inp w?).particles =
      (List.range inp.nsites.toNat).map (fun (i : ℕ) => ((i : ℤ), inp.points.getD i (0, 0, 0))) := by
  simp only [call_container]
  have := (populate_spec inp.start inp.stop inp.points inp.nsites.toNat
    { dom := inp.dom, grid := gridRes cbrt inp.nsites inp.dom,
      particles := [], tagged := [], walls := [] }).1
  simpa using this

theorem call_container_tagged (cbrt : ℚ → ℚ) (inp : Inputs) (w? : Option Wall)
    (h0 : 0 ≤ inp.start) (hse : inp.start ≤ inp.stop) (hen : inp.stop ≤ inp.nsites)
    (hlen : inp.nsites = (inp.points.length : ℤ)) :
    (call_container cbrt inp w?).tagged =
      (List.range (inp.stop - inp.start).toNat).map
        (fun (k : ℕ) => (inp.start + (k : ℤ), inp.points.getD (inp.start.toNat + k) (0, 0, 0))) := by
  simp only [call_container]
  have ht := (populate_spec inp.start inp.stop inp.points inp.nsites.toNat
    { dom := inp.dom, grid := gridRes cbrt inp.nsites inp.dom,
      particles := [], tagged := [], walls := [] }).2.1
  simp only [List.nil_append] at ht
  rw [ht, filter_range_int _ _ _ h0 hse (by omega), List.range'_eq_map_range,
    List.map_map]
  have hnc : (inp.stop - inp.start).toNat = inp.stop.toNat - inp.start.toNat := by omega
  rw [hnc]
  refine List.map_congr_left ?_
  intro k _
  simp only [Function.comp_apply]
  congr 1
  omega

theorem call_container_walls (cbrt : ℚ → ℚ) (inp : Inputs) (w? : Option Wall) :
    (call_container cbrt inp w?).walls = w?.toList := by
  simp only [call_container]
  have := (populate_spec inp.start inp.stop inp.points inp.nsites.toNat
    { dom := inp.dom, grid := gridRes cbrt inp.nsites inp.dom,
      particles := [], tagged := [], walls := [] }).2.2
  rw [this]
  rfl

theorem computeLoop_ok (engine : Engine) (con : Container)
    (f : ℤ → (ℚ × ℚ × ℚ) → CellData)
    (heng : ∀ i p, engine con i p = .ok (f i p)) (start : ℤ) (wv : Bool) :
    ∀ (l : List (ℤ × (ℚ × ℚ × ℚ))) (st : LoopState),
      (l.foldlM
        (fun st ip => do
          let cd ← engine con ip.1 ip.2
          pure (loop_step wv start st ip.1 cd)) st : Except String LoopState) =
        .ok (l.foldl (fun st ip => loop_step wv start st ip.1 (f ip.1 ip.2)) st) := by
  intro l
  induction l with
  | nil => intro st; rfl
  | cons x l ih =>
    intro st
    rw [List.foldlM_cons]
    show (do
      let st' ← (do
        let cd ← engine con x.1 x.2
        pure (loop_step wv start st x.1 cd) : Except String LoopState)
      (List.foldlM _ st' l : Except String LoopState)) = _
    rw [heng x.1 x.2]
    show (l.foldlM _ (loop_step wv start st x.1 (f x.1 x.2)) : Except String LoopState) = _
    rw [ih]
    rfl

theorem loop_step_vols (wv : Bool) (s : ℤ) (st : LoopState) (i : ℤ) (cd : CellData) :
    (loop_step wv s st i cd).vols = st.vols.set (i - s).toNat cd.volume := rfl

theorem loop_step_n_list (wv : Bool) (s : ℤ) (st : LoopState) (i : ℤ) (cd : CellData) :
    (loop_step wv s st i cd).n_list = st.n_list.set (i - s).toNat cd.neighbours := rfl

theorem loop_slots (wv : Bool) (s : ℤ) (cd : ℕ → CellData) (ncells : ℕ) :
    ∀ m : ℕ, m ≤ ncells →
      ((List.range m).foldl (fun st (k : ℕ) => loop_step wv s st (s + (k : ℤ)) (cd k))
          (init_loop_state wv ncells)).vols.length = ncells ∧
      ((List.range m).foldl (fun st (k : ℕ) => loop_step wv s st (s + (k : ℤ)) (cd k))
          (init_loop_state wv ncells)).n_list.length = ncells ∧
      (∀ k, k < m →
        ((List.range m).foldl (fun st (k : ℕ) => loop_step wv s st (s + (k : ℤ)) (cd k))
          (init_loop_state wv ncells)).vols.getD k 0 = (cd k).volume) ∧
      (∀ k, k < m →
        ((List.range m).foldl (fun st (k : ℕ) => loop_step wv s st (s + (k : ℤ)) (cd k))
          (init_loop_state wv ncells)).n_list.getD k [] = (cd k).neighbours) := by
  intro m
  induction m with
  | zero =>
    intro _
    refine ⟨?_, ?_, fun k hk => absurd hk (by omega), fun k hk => absurd hk (by omega)⟩
    · simp [init_loop_state]
    · simp [init_loop_state]
  | succ m ih =>
    intro hm
    obtain ⟨hv, hn, hvk, hnk⟩ := ih (by omega)
    rw [List.range_succ, List.foldl_append]
    have hidx : (s + (m : ℤ) - s).toNat = m := by omega
    simp only [List.foldl_cons, List.foldl_nil]
    rw [loop_step_vols, loop_step_n_list, hidx]
    refine ⟨by rw [List.length_set]; exact hv, by rw [List.length_set]; exact hn, ?_, ?_⟩
    · intro k hk
      by_cases hkm : k = m
      · subst hkm
        exact getD_set_self _ _ _ _ (by rw [hv]; omega)
      · rw [getD_set_ne _ _ _ (fun h => hkm h.symm)]
        exact hvk k (by omega)
    · intro k hk
      by_cases hkm : k = m
      · subst hkm
        exact getD_set_self _ _ _ _ (by rw [hn]; omega)
      · rw [getD_set_ne _ _ _ (fun h => hkm h.symm)]
        exact hnk k (by omega)

theorem wrap_result_indep (cbrt : ℚ → ℚ) (engine : Engine) (inp : Inputs)
    (g1 g2 : GlobalState) :
    (hyperion_voropp_wrap cbrt engine inp g1).2 =
      (hyperion_voropp_wrap cbrt engine inp g2).2 := by
  cases h : add_walls inp.wall_str inp.wall_args with
  | error e => simp [hyperion_voropp_wrap, wrap_body, h]
  | ok w? =>
    cases h2 : computeLoop engine (call_container cbrt inp w?) inp.start inp.with_vertices
        (init_loop_state inp.with_vertices (inp.stop - inp.start).toNat) with
    | error e => simp [hyperion_voropp_wrap, wrap_body, h, h2]
    | ok st =>
      simp only [hyperion_voropp_wrap, wrap_body, h, h2]
      cases hv : inp.with_vertices <;> simp [hv]

-- Claim theorems --------------------------------------------------------------

/-- C7: the grid resolution is computed exactly by `nblocks = nsites / particle_block`
with `particle_block = 5`, `block_edge = cbrt nblocks`,
`vol_edge = cbrt ((xmax-xmin)·(ymax-ymin)·(zmax-zmin))`, and per axis
`n_axis = floor(extent / vol_edge * block_edge) + 1`.  The hypotheses state that the
per-axis quotients are nonnegative (as they are whenever the domain is valid and the
cube root respects signs), under which the C truncation-toward-zero cast is `floor`. -/
theorem C7_grid_formula (cbrt : ℚ → ℚ) (nsites : ℤ) (d : Domain)
    (hx : 0 ≤ (d.xmax - d.xmin) /
      cbrt ((d.xmax - d.xmin) * (d.ymax - d.ymin) * (d.zmax - d.zmin)) *
      cbrt ((nsites : ℚ) / particle_block))
    (hy : 0 ≤ (d.ymax - d.ymin) /
      cbrt ((d.xmax - d.xmin) * (d.ymax - d.ymin) * (d.zmax - d.zmin)) *
      cbrt ((nsites : ℚ) / particle_block))
    (hz : 0 ≤ (d.zmax - d.zmin) /
      cbrt ((d.xmax - d.xmin) * (d.ymax - d.ymin) * (d.zmax - d.zmin)) *
      cbrt ((nsites : ℚ) / particle_block)) :
    particle_block = 5 ∧
    gridRes cbrt nsites d =
      (⌊(d.xmax - d.xmin) /
          cbrt ((d.xmax - d.xmin) * (d.ymax - d.ymin) * (d.zmax - d.zmin)) *
          cbrt ((nsites : ℚ) / particle_block)⌋ + 1,
       ⌊(d.ymax - d.ymin) /
          cbrt ((d.xmax - d.xmin) * (d.ymax - d.ymin) * (d.zmax - d.zmin)) *
          cbrt ((nsites : ℚ) / particle_block)⌋ + 1,
       ⌊(d.zmax - d.zmin) /
          cbrt ((d.xmax - d.xmin) * (d.ymax - d.ymin) * (d.zmax - d.zmin)) *
          cbrt ((nsites : ℚ) / particle_block)⌋ + 1) := by
  refine ⟨rfl, ?_⟩
  simp only [gridRes]
  rw [c_trunc_eq_floor hx, c_trunc_eq_floor hy, c_trunc_eq_floor hz]

/-- C7 witness: the grid formula evaluated on the unit cube with five sites and a
cube-root stand-in that returns 1. -/
theorem C7_grid_formula_witness :
    gridRes (fun _ => 1) 5 domain_unit = (2, 2, 2) := by
  have h := C7_grid_formula (fun _ => 1) 5 domain_unit
    (by norm_num [domain_unit]) (by norm_num [domain_unit]) (by norm_num [domain_unit])
  rw [h.2]
  norm_num [domain_unit]

/-- C8 counterexample: the claim quantifies over every domain, but for a domain with
an inverted axis the computed block count can be below 1.  With 40 sites (so
`nblocks = 8`, `block_edge = 2`) and extents `(-1, 1, 1)` (so the box volume is `-1`
and `vol_edge = -1`) the y axis gets `(int)(1 / -1 * 2) + 1 = -1 < 1`.  The first two
conjuncts certify that the cube-root stand-in takes the true cube-root values on the
two inputs the computation consumes. -/
theorem C8_counterexample :
    (cbrt_w 8) ^ 3 = 8 ∧ (cbrt_w (-1)) ^ 3 = -1 ∧ (0 : ℤ) ≤ 40 ∧
      (gridRes cbrt_w 40 domain_inverted).2.1 < 1 := by
  refine ⟨by norm_num [cbrt_w], by norm_num [cbrt_w], by norm_num, ?_⟩
  have h8 : ((40 : ℤ) : ℚ) / particle_block = 8 := by norm_num [particle_block]
  have hv : (domain_inverted.xmax - domain_inverted.xmin) *
      (domain_inverted.ymax - domain_inverted.ymin) *
      (domain_inverted.zmax - domain_inverted.zmin) = -1 := by
    norm_num [domain_inverted]
  unfold gridRes
  rw [h8, hv]
  norm_num [domain_inverted, cbrt_w, c_trunc]

/-- C8 (amended): grid sizing has no failure mode on the data model's valid domains:
for every `nsites ≥ 0` and every domain whose axis extents are all positive (and any
cube root that is nonnegative on nonnegative arguments, as the real cube root is),
each of `(nx, ny, nz)` is at least 1.  For a domain with a negative extent the bound
fails (see the counterexample), and a zero extent makes the code divide by zero. -/
theorem C8_grid_at_least_one (cbrt : ℚ → ℚ) (nsites : ℤ) (d : Domain)
    (hn : 0 ≤ nsites) (hcb : ∀ q, 0 ≤ q → 0 ≤ cbrt q)
    (hx : 0 < d.xmax - d.xmin) (hy : 0 < d.ymax - d.ymin) (hz : 0 < d.zmax - d.zmin) :
    1 ≤ (gridRes cbrt nsites d).1 ∧ 1 ≤ (gridRes cbrt nsites d).2.1 ∧
      1 ≤ (gridRes cbrt nsites d).2.2 := by
  have hbe : 0 ≤ cbrt ((nsites : ℚ) / particle_block) := by
    refine hcb _ (div_nonneg ?_ ?_)
    · exact_mod_cast hn
    · norm_num [particle_block]
  have hve : 0 ≤ cbrt ((d.xmax - d.xmin) * (d.ymax - d.ymin) * (d.zmax - d.zmin)) := by
    refine hcb _ ?_
    positivity
  have key : ∀ ext : ℚ, 0 < ext →
      1 ≤ c_trunc (ext / cbrt ((d.xmax - d.xmin) * (d.ymax - d.ymin) * (d.zmax - d.zmin)) *
        cbrt ((nsites : ℚ) / particle_block)) + 1 := by
    intro ext hext
    have hq : 0 ≤ ext / cbrt ((d.xmax - d.xmin) * (d.ymax - d.ymin) * (d.zmax - d.zmin)) *
        cbrt ((nsites : ℚ) / particle_block) :=
      mul_nonneg (div_nonneg hext.le hve) hbe
    rw [c_trunc_eq_floor hq]
    have := Int.floor_nonneg.mpr hq
    omega
  exact ⟨key _ hx, key _ hy, key _ hz⟩

/-- C8 witness: the amended bound evaluated on the unit cube with zero sites and the
zero cube-root stand-in (which is trivially nonnegative on nonnegative arguments). -/
theorem C8_grid_at_least_one_witness :
    1 ≤ (gridRes (fun _ => 0) 0 domain_unit).1 ∧
      1 ≤ (gridRes (fun _ => 0) 0 domain_unit).2.1 ∧
      1 ≤ (gridRes (fun _ => 0) 0 domain_unit).2.2 :=
  C8_grid_at_least_one (fun _ => 0) 0 domain_unit (by norm_num)
    (fun _ _ => le_refl 0) (by norm_num [domain_unit]) (by norm_num [domain_unit])
    (by norm_num [domain_unit])

/-- C3: wall construction fails (with an invalid-argument message) if and only if the
wall name is "sphere" with parameter count different from 4 or 4th parameter
(the radius) at most 0, or the name is "cylinder" with parameter count different
from 7 or 7th parameter at most 0; every other name adds no wall and raises no
error; on success the constructed wall is attached to the container consumed by the
cell computations. -/
theorem C3_wall_validation (wall_str : String) (wall_args : List ℚ) :
    ((∃ e, add_walls wall_str wall_args = .error e) ↔
      ((wall_str = "sphere" ∧ (wall_args.length ≠ 4 ∨ wall_args.getD 3 0 ≤ 0)) ∨
       (wall_str = "cylinder" ∧ (wall_args.length ≠ 7 ∨ wall_args.getD 6 0 ≤ 0)))) ∧
    (wall_str ≠ "sphere" → wall_str ≠ "cylinder" →
      add_walls wall_str wall_args = .ok none) ∧
    (∀ (cbrt : ℚ → ℚ) (inp : Inputs) (w : Wall),
      inp.wall_str = wall_str → inp.wall_args = wall_args →
      add_walls wall_str wall_args = .ok (some w) →
      (call_container cbrt inp (some w)).walls = [w]) := by
  constructor
  · unfold add_walls
    by_cases hs : wall_str = "sphere"
    · subst hs
      rw [if_pos rfl]
      by_cases hl : wall_args.length = 4
      · rw [if_neg (fun h => h hl)]
        by_cases hr : wall_args.getD 3 0 ≤ 0
        · rw [if_pos hr]
          exact ⟨fun _ => Or.inl ⟨rfl, Or.inr hr⟩, fun _ => ⟨_, rfl⟩⟩
        · rw [if_neg hr]
          constructor
          · rintro ⟨e, he⟩
            simp at he
          · rintro (⟨-, h4 | h4⟩ | ⟨hsc, -⟩)
            · exact absurd hl h4
            · exact absurd h4 hr
            · exact absurd hsc (by decide)
      · rw [if_pos hl]
        exact ⟨fun _ => Or.inl ⟨rfl, Or.inl hl⟩, fun _ => ⟨_, rfl⟩⟩
    · rw [if_neg hs]
      by_cases hc : wall_str = "cylinder"
      · subst hc
        rw [if_pos rfl]
        by_cases hl : wall_args.length = 7
        · rw [if_neg (fun h => h hl)]
          by_cases hr : wall_args.getD 6 0 ≤ 0
          · rw [if_pos hr]
            exact ⟨fun _ => Or.inr ⟨rfl, Or.inr hr⟩, fun _ => ⟨_, rfl⟩⟩
          · rw [if_neg hr]
            constructor
            · rintro ⟨e, he⟩
              simp at he
            · rintro (⟨hsc, -⟩ | ⟨-, h7 | h7⟩)
              · exact absurd hsc hs
              · exact absurd hl h7
              · exact absurd h7 hr
        · rw [if_pos hl]
          exact ⟨fun _ => Or.inr ⟨rfl, Or.inl hl⟩, fun _ => ⟨_, rfl⟩⟩
      · rw [if_neg hc]
        constructor
        · rintro ⟨e, he⟩
          simp at he
        · rintro (⟨hsc, -⟩ | ⟨hsc, -⟩)
          · exact absurd hsc hs
          · exact absurd hsc hc
  · refine ⟨?_, ?_⟩
    · intro hs hc
      unfold add_walls
      rw [if_neg hs, if_neg hc]
    · intro cbrt inp w _ _ _
      rw [call_container_walls]
      rfl

/-- C3 witness: the unrecognized wall name "plane" adds no wall and raises no error. -/
theorem C3_wall_validation_witness : add_walls "plane" ([] : List ℚ) = .ok none :=
  (C3_wall_validation "plane" []).2.1 (by decide) (by decide)

/-- C5: for every cell the bounding box is derived by folding componentwise min/max
over the vertex triplets starting from the first one; consequently, for a non-empty
triplet list, `bb_min ≤ bb_max` on each axis and every vertex coordinate on that
axis lies within the box. -/
theorem C5_bounding_box (vs : List ℚ) (m : ℕ) (hlen : vs.length = 3 * m) (hm : 1 ≤ m) :
    ∀ j, j < 3 →
      (bb_pair vs j).1 ≤ (bb_pair vs j).2 ∧
      ∀ i, i < m → (bb_pair vs j).1 ≤ vs.getD (i * 3 + j) 0 ∧
        vs.getD (i * 3 + j) 0 ≤ (bb_pair vs j).2 := by
  intro j hj
  have hdiv : vs.length / 3 = m := by rw [hlen]; omega
  rw [bb_pair_eq_fold, hdiv]
  obtain ⟨h1, h2, h3, h4⟩ := minmax_fold_bounds (fun i => vs.getD (i * 3 + j) 0)
    (List.range' 1 (m - 1)) (vs.getD j 0) (vs.getD j 0) (le_refl _)
  refine ⟨h3, ?_⟩
  intro i hi
  rcases Nat.eq_zero_or_pos i with rfl | hpos
  · exact ⟨by simpa using h1, by simpa using h2⟩
  · exact h4 i (List.mem_range'_1.mpr ⟨hpos, by omega⟩)

/-- C5 witness: the bounding-box invariant on the concrete two-triplet vertex list
`(0,5,1), (4,2,3)` for component `j = 0`. -/
theorem C5_bounding_box_witness :
    (bb_pair [0, 5, 1, 4, 2, 3] 0).1 ≤ (bb_pair [0, 5, 1, 4, 2, 3] 0).2 :=
  (C5_bounding_box [0, 5, 1, 4, 2, 3] 2 (by decide) (by decide) 0 (by decide)).1

/-- C1: every particle index in `[0, nsites)` is inserted into the container, tagged
for retrieval exactly when `start ≤ i < end` (the tagged list is exactly the range
`[start, end)` in order, recording each selected particle once with its global
index); the computation loop visits each tagged particle exactly once and writes
exactly one result at local slot `global - start`, producing exactly
`ncells = end - start` volumes and neighbour rows; untagged particles are never
iterated and yield no output slot. -/
theorem C1_population_and_loop (cbrt : ℚ → ℚ) (engine : Engine)
    (f : ℤ → (ℚ × ℚ × ℚ) → CellData) (inp : Inputs) (w? : Option Wall)
    (h0 : 0 ≤ inp.start) (hse : inp.start < inp.stop) (hen : inp.stop ≤ inp.nsites)
    (hlen : inp.nsites = (inp.points.length : ℤ))
    (heng : ∀ i p, engine (call_container cbrt inp w?) i p = .ok (f i p)) :
    (call_container cbrt inp w?).particles.map Prod.fst =
      (List.range inp.nsites.toNat).map (fun (i : ℕ) => (i : ℤ)) ∧
    (call_container cbrt inp w?).tagged =
      (List.range (inp.stop - inp.start).toNat).map
        (fun (k : ℕ) => (inp.start + (k : ℤ),
          inp.points.getD (inp.start.toNat + k) (0, 0, 0))) ∧
    ∃ st, computeLoop engine (call_container cbrt inp w?) inp.start inp.with_vertices
        (init_loop_state inp.with_vertices (inp.stop - inp.start).toNat) = .ok st ∧
      st.vols.length = (inp.stop - inp.start).toNat ∧
      st.n_list.length = (inp.stop - inp.start).toNat ∧
      (∀ k, k < (inp.stop - inp.start).toNat →
        st.vols.getD k 0 = (f (inp.start + (k : ℤ))
          (inp.points.getD (inp.start.toNat + k) (0, 0, 0))).volume) ∧
      (∀ k, k < (inp.stop - inp.start).toNat →
        st.n_list.getD k [] = (f (inp.start + (k : ℤ))
          (inp.points.getD (inp.start.toNat + k) (0, 0, 0))).neighbours) := by
  have htag := call_container_tagged cbrt inp w? h0 (le_of_lt hse) hen hlen
  refine ⟨?_, htag, ?_⟩
  · rw [call_container_particles, List.map_map]
    rfl
  · unfold computeLoop
    rw [htag, computeLoop_ok engine (call_container cbrt inp w?) f heng inp.start
      inp.with_vertices]
    refine ⟨_, rfl, ?_⟩
    rw [List.foldl_map]
    exact loop_slots inp.with_vertices inp.start
      (fun k => f (inp.start + (k : ℤ)) (inp.points.getD (inp.start.toNat + k) (0, 0, 0)))
      (inp.stop - inp.start).toNat (inp.stop - inp.start).toNat (le_refl _)

/-- C1 witness: the tagged list of the concrete one-particle, no-wall call is the
single selected particle at its global index. -/
theorem C1_population_and_loop_witness :
    (call_container (fun _ => 0) inp_nowall none).tagged =
      (List.range (inp_nowall.stop - inp_nowall.start).toNat).map
        (fun (k : ℕ) => (inp_nowall.start + (k : ℤ),
          inp_nowall.points.getD (inp_nowall.start.toNat + k) (0, 0, 0))) :=
  (C1_population_and_loop (fun _ => 0) engine_unit
    (fun _ _ => { neighbours := [], volume := 1, vertices := [0, 0, 0] })
    inp_nowall none (by decide) (by decide) (by decide) (by decide)
    (fun _ _ => rfl)).2.1

/-- C2: for every (valid) input the call either succeeds, committing all output
buffers and returning NULL, or fails atomically: no output buffer is committed and
the single returned channel carries the formatted human-readable message produced
by the catch-all boundary. -/
theorem C2_error_atomicity (cbrt : ℚ → ℚ) (engine : Engine) (inp : Inputs)
    (g : GlobalState)
    (h0 : 0 ≤ inp.start) (hse : inp.start < inp.stop) (hen : inp.stop ≤ inp.nsites)
    (hlen : inp.nsites = (inp.points.length : ℤ)) :
    (∃ g' out, hyperion_voropp_wrap cbrt engine inp g = (g', some out, none)) ∨
    (∃ g' e, hyperion_voropp_wrap cbrt engine inp g =
      (g', none, some (cpp_exc_msg e))) := by
  rcases h : wrap_body cbrt engine inp g with ⟨g', r⟩
  cases r with
  | ok out =>
    exact Or.inl ⟨g', out, by simp only [hyperion_voropp_wrap, h]⟩
  | error e =>
    exact Or.inr ⟨{ g' with error_message := cpp_exc_msg e }, e,
      by simp only [hyperion_voropp_wrap, h]⟩

/-- C2 witness: the concrete one-particle, no-wall call with the unit engine. -/
theorem C2_error_atomicity_witness :
    (∃ g' out, hyperion_voropp_wrap (fun _ => 0) engine_unit inp_nowall g_init =
      (g', some out, none)) ∨
    (∃ g' e, hyperion_voropp_wrap (fun _ => 0) engine_unit inp_nowall g_init =
      (g', none, some (cpp_exc_msg e))) :=
  C2_error_atomicity (fun _ => 0) engine_unit inp_nowall g_init
    (by decide) (by decide) (by decide) (by decide)

/-- C6: contrary to the claim, a selected particle whose computed cell yields zero
vertices does NOT abort the call: the code performs no emptiness check (it reads
the first vertex triplet unconditionally, which is out-of-bounds undefined
behaviour in C++), and the call returns success with committed buffers and no error
message. -/
theorem C6_no_error_on_empty_vertices :
    (hyperion_voropp_wrap (fun _ => 0) engine_degenerate inp_degenerate
      g_init).2.1.isSome = true ∧
    (hyperion_voropp_wrap (fun _ => 0) engine_degenerate inp_degenerate
      g_init).2.2 = none := ⟨rfl, rfl⟩

/-- C9 counterexample: the call does keep state between calls.  After a successful
call with a sphere wall, the static `wall_ptr` slot holds the wall object that the
call constructed: data written by the call persists after it returns. -/
theorem C9_counterexample :
    g_init.wall_ptr = none ∧
    (hyperion_voropp_wrap (fun _ => 0) engine_unit inp_sphere g_init).1.wall_ptr =
      some (Wall.sphere 0 0 0 1) := ⟨rfl, rfl⟩

/-- C9 (amended): the static storage (wall object, error text) written by a call
does persist after the call returns, but it never influences a later call's
observable result: a call's committed buffers and returned message are the same as
if the static state were pristine. -/
theorem C9_statics_do_not_influence_results (cbrt : ℚ → ℚ) (engine : Engine)
    (inp : Inputs) (g : GlobalState) :
    (hyperion_voropp_wrap cbrt engine inp g).2 =
      (hyperion_voropp_wrap cbrt engine inp g_init).2 :=
  wrap_result_indep cbrt engine inp g g_init

/-- C10: the call is deterministic: re-invoking `hyperion_voropp_wrap` with
identical arguments (after the first call possibly mutated the static state)
produces an identical observable result - same success/failure outcome, same
committed buffers (including `max_nn`/`max_nv` and every channel), same message;
the computation reads no hidden input besides the static state, which does not
influence the result. -/
theorem C10_deterministic (cbrt : ℚ → ℚ) (engine : Engine) (inp : Inputs)
    (g : GlobalState) :
    (hyperion_voropp_wrap cbrt engine inp
      ((hyperion_voropp_wrap cbrt engine inp g).1)).2 =
    (hyperion_voropp_wrap cbrt engine inp g).2 :=
  wrap_result_indep cbrt engine inp _ g

/-- C4: the neighbour channel is a row-major buffer of `ncells` rows of width
`max_nn` (the maximum neighbour count over the computed cells: every row is at most
that long and some row attains it); each row is copied left-aligned and every
trailing padded slot is the reserved sentinel -10, which is negative - hence never
a valid particle index (those are nonnegative) - and distinct from every
boundary-face sentinel id; the vertex channel, when requested, has the same
row-major padded structure with not-a-number (`none`) padding, and when not
requested the call reports `max_nv = 0` and leaves the vertex buffer uncommitted. -/
theorem C4_packing :
    (∀ rows : List (List ℤ), ∀ r ∈ rows, r.length ≤ max_size rows) ∧
    (∀ rows : List (List ℤ), rows ≠ [] → ∃ r ∈ rows, r.length = max_size rows) ∧
    (∀ rows : List (List ℤ),
      (pack_flat (max_size rows) (-10 : ℤ) rows).length = rows.length * max_size rows) ∧
    (∀ (rows : List (List ℤ)) (i j : ℕ), i < rows.length → j < max_size rows →
      (pack_flat (max_size rows) (-10 : ℤ) rows).getD (i * max_size rows + j) 0 =
        if j < (rows.getD i []).length then (rows.getD i []).getD j 0 else -10) ∧
    ((-10 : ℤ) < 0) ∧
    ((-10 : ℤ) ∉ boundary_face_ids) ∧
    (∀ (vrows : List (List ℚ)) (i j : ℕ), i < vrows.length → j < max_size vrows →
      (pack_flat (max_size vrows) none (vrows.map (List.map some))).getD
          (i * max_size vrows + j) (some 0) =
        if j < (vrows.getD i []).length then some ((vrows.getD i []).getD j 0)
        else none) ∧
    (∀ (cbrt : ℚ → ℚ) (engine : Engine) (inp : Inputs) (g g' : GlobalState)
        (out : Outputs),
      hyperion_voropp_wrap cbrt engine inp g = (g', some out, none) →
      ∃ w? st, add_walls inp.wall_str inp.wall_args = .ok w? ∧
        computeLoop engine (call_container cbrt inp w?) inp.start inp.with_vertices
          (init_loop_state inp.with_vertices (inp.stop - inp.start).toNat) = .ok st ∧
        out.max_nn = max_size st.n_list ∧
        out.neighbours = pack_flat (max_size st.n_list) (-10 : ℤ) st.n_list ∧
        (inp.with_vertices = false → out.max_nv = 0 ∧ out.vertices = none) ∧
        (inp.with_vertices = true → out.max_nv = max_size st.vertices_list ∧
          out.vertices = some (pack_flat (max_size st.vertices_list) none
            (st.vertices_list.map (List.map some))))) := by
  refine ⟨fun rows r hr => le_max_size hr, fun rows h => exists_max_size rows h,
    fun rows => pack_flat_length _ _ rows (fun r hr => le_max_size hr),
    fun rows i j hi hj =>
      pack_flat_getD _ _ _ rows i j (fun r hr => le_max_size hr) hi hj,
    by norm_num, by decide, ?_, ?_⟩
  · intro vrows i j hi hj
    have hw : ∀ r ∈ vrows.map (List.map some), r.length ≤ max_size vrows := by
      intro r hr
      obtain ⟨r', hr', rfl⟩ := List.mem_map.mp hr
      rw [List.length_map]
      exact le_max_size hr'
    have hgd : (vrows.map (List.map some)).getD i [] =
        List.map some (vrows.getD i []) := by
      simpa using List.getD_map vrows [] (List.map some) (n := i)
    rw [pack_flat_getD (max_size vrows) none (some 0) (vrows.map (List.map some)) i j
        hw (by simpa using hi) hj, hgd, List.length_map]
    by_cases hjl : j < (vrows.getD i []).length
    · rw [if_pos hjl, if_pos hjl]
      exact List.getD_map _ 0 some
    · rw [if_neg hjl, if_neg hjl]
  · intro cbrt engine inp g g' out h
    rcases hw : add_walls inp.wall_str inp.wall_args with e | w?
    · simp only [hyperion_voropp_wrap, wrap_body, hw] at h
      simp at h
    · rcases hloop : computeLoop engine (call_container cbrt inp w?) inp.start
          inp.with_vertices
          (init_loop_state inp.with_vertices (inp.stop - inp.start).toNat) with e | st
      · simp only [hyperion_voropp_wrap, wrap_body, hw, hloop] at h
        simp at h
      · simp only [hyperion_voropp_wrap, wrap_body, hw, hloop] at h
        refine ⟨w?, st, rfl, hloop, ?_⟩
        cases hv : inp.with_vertices
        · rw [hv] at h
          simp only [Bool.false_eq_true, if_false, Prod.mk.injEq,
            Option.some.injEq] at h
          obtain ⟨-, hout, -⟩ := h
          subst hout
          refine ⟨rfl, rfl, fun _ => ⟨rfl, rfl⟩, ?_⟩
          intro hc
          exact absurd hc (by decide)
        · rw [hv] at h
          simp only [if_true, Prod.mk.injEq, Option.some.injEq] at h
          obtain ⟨-, hout, -⟩ := h
          subst hout
          refine ⟨rfl, rfl, ?_, fun _ => ⟨rfl, rfl⟩⟩
          intro hc
          exact absurd hc (by decide)

/-- C4 witness: the padding equation on the concrete rows `[[5], [6, 7]]` at the
padded slot of the first row (`i = 0`, `j = 1`), which holds the sentinel. -/
theorem C4_packing_witness :
    (pack_flat (max_size [[5], [6, 7]]) (-10 : ℤ) [[5], [6, 7]]).getD
        (0 * max_size [[5], [6, 7]] + 1) 0 =
      if 1 < (([[5], [6, 7]] : List (List ℤ)).getD 0 []).length then
        (([[5], [6, 7]] : List (List ℤ)).getD 0 []).getD 1 0
      else -10 :=
  C4_packing.2.2.2.1 [[5], [6, 7]] 0 1 (by decide) (by decide)
